import Mathlib

/-!
Verification development for the github-repo-fetcher core:
a shallow embedding of `src/github_fetcher/utils.py`, `client.py` and
`fetcher.py` (record extraction, backoff wrapper, query transport,
pagination driver, user-discovery driver, two-step orchestrator),
with theorems settling the specification's testable properties.
-/

namespace GF

/-- JSON-like values, the shape of decoded GraphQL payloads.
Objects are association lists in insertion order (Python `dict`). -/
inductive Val where
  | vnull
  | vstr (s : String)
  | vint (n : Int)
  | vbool (b : Bool)
  | vobj (fields : List (String × Val))
  | vlist (elems : List Val)

mutual

/-- Structural equality of values (Python `==` on this JSON fragment). -/
def valBeq : Val → Val → Bool
  | .vnull, .vnull => true
  | .vstr a, .vstr b => a == b
  | .vint a, .vint b => a == b
  | .vbool a, .vbool b => a == b
  | .vobj a, .vobj b => fieldsBeq a b
  | .vlist a, .vlist b => elemsBeq a b
  | _, _ => false

def fieldsBeq : List (String × Val) → List (String × Val) → Bool
  | [], [] => true
  | (k, v) :: a, (l, w) :: b => k == l && valBeq v w && fieldsBeq a b
  | _, _ => false

def elemsBeq : List Val → List Val → Bool
  | [], [] => true
  | v :: a, w :: b => valBeq v w && elemsBeq a b
  | _, _ => false

end

mutual

theorem valBeq_iff : ∀ a b : Val, valBeq a b = true ↔ a = b
  | .vnull, b => by cases b <;> simp [valBeq]
  | .vstr s, b => by cases b <;> simp [valBeq]
  | .vint n, b => by cases b <;> simp [valBeq]
  | .vbool x, b => by cases b <;> simp [valBeq]
  | .vobj a, b => by
      cases b with
      | vobj c => simpa [valBeq] using fieldsBeq_iff a c
      | vnull => simp [valBeq]
      | vstr s => simp [valBeq]
      | vint n => simp [valBeq]
      | vbool x => simp [valBeq]
      | vlist c => simp [valBeq]
  | .vlist a, b => by
      cases b with
      | vlist c => simpa [valBeq] using elemsBeq_iff a c
      | vnull => simp [valBeq]
      | vstr s => simp [valBeq]
      | vint n => simp [valBeq]
      | vbool x => simp [valBeq]
      | vobj c => simp [valBeq]

theorem fieldsBeq_iff : ∀ a b : List (String × Val), fieldsBeq a b = true ↔ a = b
  | [], b => by cases b <;> simp [fieldsBeq]
  | (k, v) :: a, [] => by simp [fieldsBeq]
  | (k, v) :: a, (l, w) :: b => by
      simp [fieldsBeq, valBeq_iff v w, fieldsBeq_iff a b, Prod.ext_iff]

theorem elemsBeq_iff : ∀ a b : List Val, elemsBeq a b = true ↔ a = b
  | [], b => by cases b <;> simp [elemsBeq]
  | v :: a, [] => by simp [elemsBeq]
  | v :: a, w :: b => by
      simp [elemsBeq, valBeq_iff v w, elemsBeq_iff a b]

end

instance : DecidableEq Val := fun a b => decidable_of_iff _ (valBeq_iff a b)

/-- Python truthiness of a value (`bool(x)`). -/
def truthy : Val → Bool
  | .vnull => false
  | .vstr s => !s.isEmpty
  | .vint n => n != 0
  | .vbool b => b
  | .vobj fields => !fields.isEmpty
  | .vlist elems => !elems.isEmpty

/-- Python `d.get(key, default)`: the stored value when the key is present
(possibly `None`), the default when absent; `AttributeError` on a non-dict. -/
def pyGetD (v : Val) (k : String) (d : Val) : Except String Val :=
  match v with
  | .vobj fields => .ok ((fields.lookup k).getD d)
  | _ => .error "AttributeError: get"

/-- Python `d.get(key)` (default `None`). -/
def pyGet (v : Val) (k : String) : Except String Val :=
  pyGetD v k .vnull

/-- Python `a or b`. -/
def pyOr (a b : Val) : Val :=
  if truthy a then a else b

/-- Python iteration over a value; modelled for lists (the only shapes the
embedded code iterates), `TypeError` otherwise. -/
def pyIter (v : Val) : Except String (List Val) :=
  match v with
  | .vlist elems => .ok elems
  | _ => .error "TypeError: not iterable"

/-- Python `x == "lit"` for a value against a string literal. -/
def isStrEq (v : Val) (s : String) : Bool :=
  match v with
  | .vstr t => t == s
  | _ => false

/-- Whether an object value carries a key. -/
def hasKey (v : Val) (k : String) : Bool :=
  match v with
  | .vobj fields => (fields.lookup k).isSome
  | _ => false

/-- The topics comprehension of `extract_repo_data` (utils.py:113-117):
`[node.get('topic', \x7b\x7d).get('name') for node in nodes if node and node.get('topic')]`. -/
def topicNames : List Val → Except String (List Val)
  | [] => .ok []
  | node :: rest => do
      let keep ← if truthy node then do
          let t ← pyGet node "topic"
          pure (truthy t)
        else pure false
      if keep then do
        let td ← pyGetD node "topic" (.vobj [])
        let nm ← pyGet td "name"
        let tl ← topicNames rest
        pure (nm :: tl)
      else topicNames rest

/-- Languages block of `extract_repo_data` (utils.py:104-108). -/
def extractLanguages (repo_node : Val) : Except String (List Val) := do
  let languages_nodes ← pyGetD repo_node "languages" (.vobj [])
  if truthy languages_nodes then do
    let lnodes ← pyGetD languages_nodes "nodes" (.vlist [])
    let xs ← pyIter lnodes
    (xs.filter truthy).mapM (fun lang => pyGet lang "name")
  else pure ([] : List Val)

/-- Topics block of `extract_repo_data` (utils.py:111-119). -/
def extractTopics (repo_node : Val) : Except String (List Val) := do
  let topics_data ← pyGetD repo_node "repositoryTopics" (.vobj [])
  if truthy topics_data then do
    let tnodes ← pyGetD topics_data "nodes" (.vlist [])
    let xs ← pyIter tnodes
    topicNames xs
  else pure ([] : List Val)

/-- README block (utils.py:122-123):
`readme_obj.get('text', '') if readme_obj else ''`. -/
def readmeContentOf (repo_node : Val) : Except String Val := do
  let readme_obj ← pyGet repo_node "object"
  if truthy readme_obj then pyGetD readme_obj "text" (.vstr "")
  else pure (Val.vstr "")

/-- The `container.get(k, \x7b\x7d).get('totalCount', 0) if container.get(k) else 0`
pattern used for watchers (utils.py:145), open issues (146) and owner
followers (173). -/
def condTotalCount (container : Val) (k : String) : Except String Val := do
  let c ← pyGet container k
  if truthy c then do
    let w ← pyGetD container k (.vobj [])
    pyGetD w "totalCount" (.vint 0)
  else pure (Val.vint 0)

/-- `owner.get('company', '') if owner_typename == 'User' else ''` (utils.py:170). -/
def ownerCompanyOf (owner owner_typename : Val) : Except String Val :=
  if isStrEq owner_typename "User" then pyGetD owner "company" (.vstr "")
  else pure (Val.vstr "")

/-- `owner.get('bio', '') if owner_typename == 'User' else owner.get('description', '')`
(utils.py:171). -/
def ownerBioOf (owner owner_typename : Val) : Except String Val :=
  if isStrEq owner_typename "User" then pyGetD owner "bio" (.vstr "")
  else pyGetD owner "description" (.vstr "")

/-- `extract_repo_data` (utils.py:86-178), translated block by block.
`Except` models an uncaught Python exception; `.ok` is a normal return. -/
def extract_repo_data (repo_node : Val) : Except String Val := do
  -- if not repo_node: return {}
  if !truthy repo_node then
    return .vobj []
  -- owner = repo_node.get('owner', {}) or {}
  let ownerRaw ← pyGetD repo_node "owner" (.vobj [])
  let owner := pyOr ownerRaw (.vobj [])
  -- owner_typename = owner.get('__typename', '')
  let owner_typename ← pyGetD owner "__typename" (.vstr "")
  let languages ← extractLanguages repo_node
  let topics ← extractTopics repo_node
  let readme_content ← readmeContentOf repo_node
  -- license_info = repo_node.get('licenseInfo', {}) or {}
  let licenseRaw ← pyGetD repo_node "licenseInfo" (.vobj [])
  let license_info := pyOr licenseRaw (.vobj [])
  -- primary_lang = repo_node.get('primaryLanguage', {}) or {}
  let plRaw ← pyGetD repo_node "primaryLanguage" (.vobj [])
  let primary_lang := pyOr plRaw (.vobj [])
  let watchers ← condTotalCount repo_node "watchers"
  let open_issues ← condTotalCount repo_node "issues"
  let owner_company ← ownerCompanyOf owner owner_typename
  let owner_bio ← ownerBioOf owner owner_typename
  let owner_followers ← condTotalCount owner "followers"
  -- remaining plain fields, in the dict-literal order of the source
  let nwo ← pyGetD repo_node "nameWithOwner" (.vstr "")
  let nameV ← pyGetD repo_node "name" (.vstr "")
  let description ← pyGetD repo_node "description" (.vstr "")
  let url ← pyGetD repo_node "url" (.vstr "")
  let homepage_url ← pyGetD repo_node "homepageUrl" (.vstr "")
  let created_at ← pyGetD repo_node "createdAt" (.vstr "")
  let updated_at ← pyGetD repo_node "updatedAt" (.vstr "")
  let pushed_at ← pyGetD repo_node "pushedAt" (.vstr "")
  let stars ← pyGetD repo_node "stargazerCount" (.vint 0)
  let forks ← pyGetD repo_node "forkCount" (.vint 0)
  let disk_usage_kb ← pyGetD repo_node "diskUsage" (.vint 0)
  let primary_language ← pyGetD primary_lang "name" (.vstr "")
  let is_fork ← pyGetD repo_node "isFork" (.vbool false)
  let is_archived ← pyGetD repo_node "isArchived" (.vbool false)
  let is_private ← pyGetD repo_node "isPrivate" (.vbool false)
  let is_template ← pyGetD repo_node "isTemplate" (.vbool false)
  let has_wiki ← pyGetD repo_node "hasWikiEnabled" (.vbool false)
  let has_issues ← pyGetD repo_node "hasIssuesEnabled" (.vbool false)
  let license_key ← pyGetD license_info "key" (.vstr "")
  let license_name ← pyGetD license_info "name" (.vstr "")
  let owner_login ← pyGetD owner "login" (.vstr "")
  let owner_location ← pyGetD owner "location" (.vstr "")
  let owner_email ← pyGetD owner "email" (.vstr "")
  let owner_created_at ← pyGetD owner "createdAt" (.vstr "")
  return .vobj
    [ ("nwo", nwo), ("name", nameV), ("description", description), ("url", url),
      ("homepage_url", homepage_url), ("created_at", created_at),
      ("updated_at", updated_at), ("pushed_at", pushed_at),
      ("stars", stars), ("forks", forks), ("watchers", watchers),
      ("open_issues", open_issues), ("disk_usage_kb", disk_usage_kb),
      ("primary_language", primary_language),
      ("languages", .vlist languages), ("topics", .vlist topics),
      ("is_fork", is_fork), ("is_archived", is_archived), ("is_private", is_private),
      ("is_template", is_template), ("has_wiki", has_wiki), ("has_issues", has_issues),
      ("license_key", license_key), ("license_name", license_name),
      ("owner_login", owner_login), ("owner_type", owner_typename),
      ("owner_location", owner_location), ("owner_company", owner_company),
      ("owner_bio", owner_bio), ("owner_email", owner_email),
      ("owner_followers", owner_followers), ("owner_created_at", owner_created_at),
      ("readme_content", readme_content) ]

/-- The fully-defaulted Record: every documented field at its deterministic
default (empty string / 0 / false / empty list). -/
def defaultRecord : List (String × Val) :=
  [ ("nwo", .vstr ""), ("name", .vstr ""), ("description", .vstr ""), ("url", .vstr ""),
    ("homepage_url", .vstr ""), ("created_at", .vstr ""),
    ("updated_at", .vstr ""), ("pushed_at", .vstr ""),
    ("stars", .vint 0), ("forks", .vint 0), ("watchers", .vint 0),
    ("open_issues", .vint 0), ("disk_usage_kb", .vint 0),
    ("primary_language", .vstr ""),
    ("languages", .vlist []), ("topics", .vlist []),
    ("is_fork", .vbool false), ("is_archived", .vbool false), ("is_private", .vbool false),
    ("is_template", .vbool false), ("has_wiki", .vbool false), ("has_issues", .vbool false),
    ("license_key", .vstr ""), ("license_name", .vstr ""),
    ("owner_login", .vstr ""), ("owner_type", .vstr ""),
    ("owner_location", .vstr ""), ("owner_company", .vstr ""),
    ("owner_bio", .vstr ""), ("owner_email", .vstr ""),
    ("owner_followers", .vint 0), ("owner_created_at", .vstr ""),
    ("readme_content", .vstr "") ]

/-- Accessor for one field of an extracted record (spec-side helper). -/
def recordField (node : Val) (k : String) : Option Val :=
  match extract_repo_data node with
  | .ok (.vobj out) => out.lookup k
  | _ => none

/-- A sub-object that is `null` or absent upstream. -/
def nullish (o : Option Val) : Prop :=
  o = none ∨ o = some .vnull

theorem exBind_ok (a : α) (f : α → Except ε β) :
    (Bind.bind (Except.ok a) f : Except ε β) = f a := rfl

theorem exBind_error (e : ε) (f : α → Except ε β) :
    (Bind.bind (Except.error e) f : Except ε β) = .error e := rfl

theorem exPure (a : α) : (Pure.pure a : Except ε α) = Except.ok a := rfl

theorem nullish_pyOr_obj {o : Option Val} (h : nullish o) :
    pyOr (o.getD (.vobj [])) (.vobj []) = .vobj [] := by
  rcases h with h | h <;> subst h <;> rfl

theorem nullish_truthy_obj {o : Option Val} (h : nullish o) :
    truthy (o.getD (.vobj [])) = false := by
  rcases h with h | h <;> subst h <;> rfl

theorem nullish_truthy_null {o : Option Val} (h : nullish o) :
    truthy (o.getD .vnull) = false := by
  rcases h with h | h <;> subst h <;> rfl

theorem lookup_some_not_nil {l : List (String × Val)} {k : String} {v : Val}
    (h : l.lookup k = some v) : l.isEmpty = false := by
  cases l with
  | nil => simp [List.lookup] at h
  | cons a t => rfl

theorem pyOr_obj_of_lookup {l : List (String × Val)} {k : String}
    {o : List (String × Val)}
    (h : l.lookup k = some (.vobj o)) (ho : o.isEmpty = false) :
    pyOr ((l.lookup k).getD (.vobj [])) (.vobj []) = .vobj o := by
  rw [h]; simp [pyOr, truthy, ho]

theorem condTotalCount_some_total {fields ffs : List (String × Val)} {k : String}
    {n : Val}
    (h : fields.lookup k = some (.vobj ffs)) (hemp : ffs.isEmpty = false)
    (ht : ffs.lookup "totalCount" = some n) :
    condTotalCount (.vobj fields) k = .ok n := by
  simp [condTotalCount, pyGet, pyGetD, truthy, h, ht, hemp, exBind_ok, exPure]

theorem extractLanguages_nullish {fields : List (String × Val)}
    (h : nullish (fields.lookup "languages")) :
    extractLanguages (.vobj fields) = .ok [] := by
  simp only [extractLanguages, pyGetD, exBind_ok, nullish_truthy_obj h,
    Bool.false_eq_true, if_false, exPure]

theorem extractTopics_nullish {fields : List (String × Val)}
    (h : nullish (fields.lookup "repositoryTopics")) :
    extractTopics (.vobj fields) = .ok [] := by
  simp only [extractTopics, pyGetD, exBind_ok, nullish_truthy_obj h,
    Bool.false_eq_true, if_false, exPure]

theorem readmeContentOf_nullish {fields : List (String × Val)}
    (h : nullish (fields.lookup "object")) :
    readmeContentOf (.vobj fields) = .ok (.vstr "") := by
  simp only [readmeContentOf, pyGet, pyGetD, exBind_ok, nullish_truthy_null h,
    Bool.false_eq_true, if_false, exPure]

theorem condTotalCount_nullish {fields : List (String × Val)} {k : String}
    (h : nullish (fields.lookup k)) :
    condTotalCount (.vobj fields) k = .ok (.vint 0) := by
  simp only [condTotalCount, pyGet, pyGetD, exBind_ok, nullish_truthy_null h,
    Bool.false_eq_true, if_false, exPure]

end GF

namespace GF

/-- C10: for a `None` or empty-mapping input node, `extract_repo_data` returns
the empty dictionary with no keys at all, not a Record of defaults. -/
theorem empty_node_extraction :
    extract_repo_data .vnull = .ok (.vobj [])
    ∧ extract_repo_data (.vobj []) = .ok (.vobj [])
    ∧ hasKey (.vobj []) "nwo" = false
    ∧ Val.vobj [] ≠ .vobj defaultRecord :=
  ⟨rfl, rfl, rfl, by decide⟩

/-- C1 (counterexample): the empty mapping has every optional sub-object
absent, yet `extract_repo_data` returns the empty record that omits every
documented key — refuting the claim that for every such input node the result
carries all documented fields populated by their defaults. -/
theorem extract_total_defaults_cex :
    extract_repo_data (Val.vobj []) = .ok (.vobj [])
    ∧ hasKey (Val.vobj []) "nwo" = false :=
  ⟨rfl, rfl⟩

/-- C1 (amended): for every non-empty (truthy) input node whose optional
sub-objects (owner, languages, repositoryTopics, readme object, licenseInfo,
primaryLanguage, watchers, issues — and thereby followers) are null or absent
and whose scalar source fields are absent, `extract_repo_data` returns without
raising, and its result has every documented field present, populated by its
deterministic default (empty string / 0 / false / empty list). -/
theorem extract_total_defaults (fields : List (String × Val))
    (hne : fields ≠ [])
    (howner : nullish (fields.lookup "owner"))
    (hlang : nullish (fields.lookup "languages"))
    (htop : nullish (fields.lookup "repositoryTopics"))
    (hobe : nullish (fields.lookup "object"))
    (hlic : nullish (fields.lookup "licenseInfo"))
    (hpl : nullish (fields.lookup "primaryLanguage"))
    (hwat : nullish (fields.lookup "watchers"))
    (hiss : nullish (fields.lookup "issues"))
    (h01 : fields.lookup "nameWithOwner" = none)
    (h02 : fields.lookup "name" = none)
    (h03 : fields.lookup "description" = none)
    (h04 : fields.lookup "url" = none)
    (h05 : fields.lookup "homepageUrl" = none)
    (h06 : fields.lookup "createdAt" = none)
    (h07 : fields.lookup "updatedAt" = none)
    (h08 : fields.lookup "pushedAt" = none)
    (h09 : fields.lookup "stargazerCount" = none)
    (h10 : fields.lookup "forkCount" = none)
    (h11 : fields.lookup "diskUsage" = none)
    (h12 : fields.lookup "isFork" = none)
    (h13 : fields.lookup "isArchived" = none)
    (h14 : fields.lookup "isPrivate" = none)
    (h15 : fields.lookup "isTemplate" = none)
    (h16 : fields.lookup "hasWikiEnabled" = none)
    (h17 : fields.lookup "hasIssuesEnabled" = none) :
    extract_repo_data (.vobj fields) = .ok (.vobj defaultRecord) := by
  have hemp : fields.isEmpty = false := by
    cases fields with
    | nil => exact absurd rfl hne
    | cons a t => rfl
  simp only [extract_repo_data, pyGetD, pyGet, truthy, isStrEq, hemp,
        exBind_ok, exPure,
        nullish_pyOr_obj howner, nullish_pyOr_obj hlic, nullish_pyOr_obj hpl,
        extractLanguages_nullish hlang, extractTopics_nullish htop,
        readmeContentOf_nullish hobe,
        condTotalCount_nullish hwat, condTotalCount_nullish hiss,
        h01, h02, h03, h04, h05, h06, h07, h08, h09, h10, h11, h12, h13, h14,
        h15, h16, h17]
  simp [ownerCompanyOf, ownerBioOf, condTotalCount, pyGet, pyGetD, isStrEq,
        truthy, exBind_ok, exPure, defaultRecord]

/-- C1 (witness): the amended theorem applied at the node `\x7b"owner": None\x7d`. -/
theorem extract_total_defaults_witness :
    extract_repo_data (.vobj [("owner", Val.vnull)]) = .ok (.vobj defaultRecord) :=
  extract_total_defaults [("owner", Val.vnull)] (by decide) (Or.inr rfl)
    (Or.inl rfl) (Or.inl rfl) (Or.inl rfl) (Or.inl rfl) (Or.inl rfl)
    (Or.inl rfl) (Or.inl rfl) rfl rfl rfl rfl rfl rfl rfl rfl rfl rfl rfl rfl
    rfl rfl rfl rfl rfl

/-- C2 (counterexample): an Organization owner that carries a `followers`
sub-object yields `owner_followers = 7`, not zero — `extract_repo_data` reads
`followers` regardless of the owner `__typename` (the zero observed in
production comes from the GraphQL query requesting `followers` only on User). -/
theorem extract_owner_branching_cex :
    recordField
      (.vobj [("owner", .vobj [("__typename", .vstr "Organization"),
        ("followers", .vobj [("totalCount", .vint 7)])])]) "owner_followers"
      = some (.vint 7)
    ∧ recordField
      (.vobj [("owner", .vobj [("__typename", .vstr "Organization"),
        ("followers", .vobj [("totalCount", .vint 7)])])]) "owner_followers"
      ≠ some (.vint 0) :=
  ⟨rfl, by decide⟩

/-- C2 (amended): for a well-formed node whose owner `__typename` is
"Organization", `owner_company` is the empty string, `owner_bio` is sourced
from the organization's `description`, and `owner_followers` is zero provided
the owner carries no (or a null) `followers` sub-object — which the GraphQL
query guarantees for organizations; for `__typename` "User", `owner_company`,
`owner_bio` and `owner_followers` are sourced from the user-specific
`company`, `bio` and `followers` fields. -/
theorem extract_owner_branching (rfields ofields : List (String × Val))
    (howner : rfields.lookup "owner" = some (.vobj ofields))
    (hlang : nullish (rfields.lookup "languages"))
    (htop : nullish (rfields.lookup "repositoryTopics"))
    (hobe : nullish (rfields.lookup "object"))
    (hlic : nullish (rfields.lookup "licenseInfo"))
    (hpl : nullish (rfields.lookup "primaryLanguage"))
    (hwat : nullish (rfields.lookup "watchers"))
    (hiss : nullish (rfields.lookup "issues")) :
    ((ofields.lookup "__typename" = some (.vstr "Organization")) →
      nullish (ofields.lookup "followers") →
      recordField (.vobj rfields) "owner_company" = some (.vstr "")
      ∧ recordField (.vobj rfields) "owner_bio"
          = some ((ofields.lookup "description").getD (.vstr ""))
      ∧ recordField (.vobj rfields) "owner_followers" = some (.vint 0))
    ∧ ((ofields.lookup "__typename" = some (.vstr "User")) →
      ∀ (ffields : List (String × Val)) (n : Int),
      ofields.lookup "followers" = some (.vobj ffields) →
      ffields.lookup "totalCount" = some (.vint n) →
      recordField (.vobj rfields) "owner_company"
          = some ((ofields.lookup "company").getD (.vstr ""))
      ∧ recordField (.vobj rfields) "owner_bio"
          = some ((ofields.lookup "bio").getD (.vstr ""))
      ∧ recordField (.vobj rfields) "owner_followers" = some (.vint n)) := by
  have hremp : rfields.isEmpty = false := lookup_some_not_nil howner
  constructor
  · intro htn hfol
    have hoemp : ofields.isEmpty = false := lookup_some_not_nil htn
    simp only [recordField, extract_repo_data, truthy, hremp, Bool.not_false,
      if_true, pyGetD, exBind_ok, exPure,
      pyOr_obj_of_lookup howner hoemp,
      extractLanguages_nullish hlang, extractTopics_nullish htop,
      readmeContentOf_nullish hobe,
      nullish_pyOr_obj hlic, nullish_pyOr_obj hpl,
      condTotalCount_nullish hwat, condTotalCount_nullish hiss,
      condTotalCount_nullish hfol, htn]
    simp [ownerCompanyOf, ownerBioOf, isStrEq, pyGetD, exBind_ok, exPure, List.lookup]
  · intro htn ffields n hff hfc
    have hoemp : ofields.isEmpty = false := lookup_some_not_nil htn
    have hfemp : ffields.isEmpty = false := lookup_some_not_nil hfc
    simp only [recordField, extract_repo_data, truthy, hremp, Bool.not_false,
      if_true, pyGetD, exBind_ok, exPure,
      pyOr_obj_of_lookup howner hoemp,
      extractLanguages_nullish hlang, extractTopics_nullish htop,
      readmeContentOf_nullish hobe,
      nullish_pyOr_obj hlic, nullish_pyOr_obj hpl,
      condTotalCount_nullish hwat, condTotalCount_nullish hiss,
      condTotalCount_some_total hff hfemp hfc, htn]
    simp [ownerCompanyOf, ownerBioOf, isStrEq, pyGetD, exBind_ok, exPure, List.lookup]

/-- Concrete Organization owner used by the owner-branching witness. -/
def orgOwnerW : List (String × Val) :=
  [("__typename", .vstr "Organization"), ("description", .vstr "an org")]

/-- Concrete Organization-owned node used by the owner-branching witness. -/
def orgNodeW : List (String × Val) := [("owner", .vobj orgOwnerW)]

/-- Concrete User owner used by the owner-branching witness. -/
def userOwnerW : List (String × Val) :=
  [("__typename", .vstr "User"), ("company", .vstr "acme"), ("bio", .vstr "dev"),
   ("followers", .vobj [("totalCount", .vint 3)])]

/-- Concrete User-owned node used by the owner-branching witness. -/
def userNodeW : List (String × Val) := [("owner", .vobj userOwnerW)]

/-- C2 (witness): the amended theorem applied to a concrete Organization-owned
node and a concrete User-owned node. -/
theorem extract_owner_branching_witness :
    (recordField (.vobj orgNodeW) "owner_company" = some (.vstr "")
      ∧ recordField (.vobj orgNodeW) "owner_bio" = some (.vstr "an org")
      ∧ recordField (.vobj orgNodeW) "owner_followers" = some (.vint 0))
    ∧ (recordField (.vobj userNodeW) "owner_company" = some (.vstr "acme")
      ∧ recordField (.vobj userNodeW) "owner_bio" = some (.vstr "dev")
      ∧ recordField (.vobj userNodeW) "owner_followers" = some (.vint 3)) :=
  ⟨(extract_owner_branching orgNodeW orgOwnerW rfl (Or.inl rfl) (Or.inl rfl)
      (Or.inl rfl) (Or.inl rfl) (Or.inl rfl) (Or.inl rfl) (Or.inl rfl)).1
      rfl (Or.inl rfl),
   (extract_owner_branching userNodeW userOwnerW rfl (Or.inl rfl) (Or.inl rfl)
      (Or.inl rfl) (Or.inl rfl) (Or.inl rfl) (Or.inl rfl) (Or.inl rfl)).2
      rfl [("totalCount", .vint 3)] 3 rfl rfl⟩

end GF

namespace GF

/-! ## Backoff wrapper and query transport (utils.py:16-49, client.py:42-84) -/

/-- One iteration step of the `exponential_backoff` retry loop
(utils.py:35-47), fuel = `max_retries - attempt`.  `pred` classifies
failures as retryable (membership in the decorator's `exceptions` tuple);
the result carries the outcome, the list of delays slept, and the number of
calls made to the wrapped operation. -/
def backoffGo {α ε : Type} (pred : ε → Bool) (op : Nat → Except ε α)
    (baseDelay maxDelay expBase : ℚ) :
    Nat → Nat → List ℚ → Except ε α × List ℚ × Nat
  | fuel, attempt, delays =>
    match op attempt with
    | .ok a => (.ok a, delays, attempt + 1)
    | .error e =>
      if pred e then
        match fuel with
        | 0 => (.error e, delays, attempt + 1)   -- attempt == max_retries: re-raise e
        | fuel' + 1 =>
            backoffGo pred op baseDelay maxDelay expBase fuel' (attempt + 1)
              (delays ++ [min (baseDelay * expBase ^ attempt) maxDelay])
      else (.error e, delays, attempt + 1)       -- not in `exceptions`: propagates uncaught

/-- `exponential_backoff(max_retries, base_delay, max_delay, exponential_base)`
wrapping an operation whose outcome may differ per attempt. -/
def exponential_backoff {α ε : Type} (maxRetries : Nat)
    (baseDelay maxDelay expBase : ℚ) (pred : ε → Bool)
    (op : Nat → Except ε α) : Except ε α × List ℚ × Nat :=
  backoffGo pred op baseDelay maxDelay expBase maxRetries 0 []

mutual

/-- Python `repr` of a value, which is what `str(e)` renders for the dict
entries reached by the error-message fallback (client.py:81).  String repr is
modelled as plain single quotes; repr escape sequences (for quotes, control
characters) are not modelled, and no theorem exercises strings needing them. -/
def pyRepr : Val → String
  | .vnull => "None"
  | .vstr s => "'" ++ s ++ "'"
  | .vint n => toString n
  | .vbool b => if b then "True" else "False"
  | .vobj fs => "\x7b" ++ pyReprFields fs ++ "\x7d"
  | .vlist es => "[" ++ pyReprElems es ++ "]"

def pyReprFields : List (String × Val) → String
  | [] => ""
  | [(k, v)] => "'" ++ k ++ "': " ++ pyRepr v
  | (k, v) :: rest => "'" ++ k ++ "': " ++ pyRepr v ++ ", " ++ pyReprFields rest

def pyReprElems : List Val → String
  | [] => ""
  | [v] => pyRepr v
  | v :: rest => pyRepr v ++ ", " ++ pyReprElems rest

end

end GF

namespace GF

/-- C7: with 3 retries, base delay 2.0 and multiplier 2.0, an operation that
keeps failing with a retryable failure is retried with delays exactly
2s, 4s, 8s — each equal to min(base_delay * multiplier^attempt, max_delay) —
and on exhaustion the last failure is re-raised unchanged after 4 calls;
a non-retryable failure propagates immediately with no retry and no delay. -/
theorem backoff_schedule_exhaustion {α ε : Type} (pred : ε → Bool)
    (op : Nat → Except ε α) (f : Nat → ε)
    (hop : ∀ n, op n = .error (f n)) (hre : ∀ n, pred (f n) = true) :
    exponential_backoff 3 2 60 2 pred op = (.error (f 3), [2, 4, 8], 4)
    ∧ ([(2 : ℚ), 4, 8]
        = [min (2 * 2 ^ (0 : Nat)) 60, min (2 * 2 ^ (1 : Nat)) 60,
           min (2 * 2 ^ (2 : Nat)) 60])
    ∧ (∀ (op' : Nat → Except ε α) (g : ε), pred g = false →
        op' 0 = .error g →
        exponential_backoff 3 2 60 2 pred op' = (.error g, [], 1)) := by
  refine ⟨?_, by norm_num, ?_⟩
  · simp only [exponential_backoff, backoffGo, hop, hre, if_true]
    norm_num
  · intro op' g hg hop'
    simp only [exponential_backoff, backoffGo, hop', hg, Bool.false_eq_true,
      if_false]

/-- C7 (witness): the schedule theorem applied to a concrete always-failing
retryable operation and a concrete non-retryable failure. -/
theorem backoff_schedule_exhaustion_witness :
    exponential_backoff 3 2 60 2 (fun _ => true)
      (fun n => (.error (toString n) : Except String Unit))
      = (.error "3", [2, 4, 8], 4)
    ∧ exponential_backoff 3 2 60 2 (fun s => s != "fatal")
      (fun _ => (.error "fatal" : Except String Unit)) = (.error "fatal", [], 1) :=
  ⟨(backoff_schedule_exhaustion (fun _ => true) _ (fun n => toString n)
      (fun _ => rfl) (fun _ => rfl)).1,
   (backoff_schedule_exhaustion (fun s => s != "fatal")
      (fun _ => (.error "x" : Except String Unit)) (fun _ => "x")
      (fun _ => rfl) (fun _ => rfl)).2.2
      (fun _ => (.error "fatal" : Except String Unit)) "fatal" (by decide) rfl⟩

end GF

namespace GF

end GF

namespace GF

/-! ## Pagination driver `search_repositories` (fetcher.py:45-154) -/

/-- One decoded search page: the repository nodes and the `pageInfo` has-more
flag.  The opaque cursor is represented by consuming the scripted pages in
order. -/
structure Page where
  nodes : List Val
  hasNextPage : Bool
  deriving DecidableEq

/-- Result of one `search_repositories` run: the accumulated records, the
number of search requests issued, and the matched counts at which the
persistence sink actually wrote (the final flush included). -/
structure SearchRun where
  repos : List Val
  requests : Nat
  saves : List Nat
  deriving DecidableEq

/-- `SAVE_INTERVAL = 100` (fetcher.py:30). -/
def SAVE_INTERVAL : Nat := 100

/-- Leading-match of one character list against another. -/
def charsLeading : List Char → List Char → Bool
  | [], _ => true
  | _ :: _, [] => false
  | a :: as, b :: bs => a == b && charsLeading as bs

/-- Python `needle in hay` for strings, on character lists. -/
def charsWithin (n : List Char) : List Char → Bool
  | [] => n.isEmpty
  | c :: t => charsLeading n (c :: t) || charsWithin n t

/-- Python `.lower()`, `AttributeError` on a non-string. -/
def pyLower (v : Val) : Except String String :=
  match v with
  | .vstr s => .ok s.toLower
  | _ => .error "AttributeError: lower"

/-- The location filter of `search_repositories` (fetcher.py:112-115):
with a filter, a record is kept iff
`location_filter.lower() in (repo_data.get('owner_location') or '').lower()`. -/
def keepTest (lf : Option String) (r : Val) : Except String Bool :=
  match lf with
  | none => .ok true
  | some lfs => do
      let olv ← pyGet r "owner_location"
      let ol ← pyLower (pyOr olv (.vstr ""))
      .ok (charsWithin lfs.toLower.toList ol.toList)

/-- The per-page node loop of `search_repositories` (fetcher.py:106-122):
skip null nodes, extract, count fetched, filter, append, and break out as
soon as `total_matched` reaches `max_repos`.  State is
`(total_matched, total_fetched, accumulated repos)`. -/
def processNodes (lf : Option String) (maxRepos : Nat) :
    List Val → Nat → Nat → List Val → Except String (Nat × Nat × List Val)
  | [], matched, fetched, repos => .ok (matched, fetched, repos)
  | node :: rest, matched, fetched, repos =>
    if truthy node then do
      let r ← extract_repo_data node
      let fetched' := fetched + 1
      let keep ← keepTest lf r
      if keep then
        let repos' := repos ++ [r]
        let matched' := matched + 1
        if maxRepos ≤ matched' then .ok (matched', fetched', repos')
        else processNodes lf maxRepos rest matched' fetched' repos'
      else processNodes lf maxRepos rest matched fetched' repos
    else processNodes lf maxRepos rest matched fetched repos

/-- Operation end of `search_repositories` (fetcher.py:142-154): the final
`_save_progress` writes whenever an output path is given and the buffer is
non-empty (fetcher.py:602-604). -/
def finishRun (outputPath : Bool) (repos : List Val) (reqs matched : Nat)
    (saves : List Nat) : SearchRun :=
  ⟨repos, reqs, if outputPath && !repos.isEmpty then saves ++ [matched] else saves⟩

/-- The `while total_matched < max_repos` loop of `search_repositories`
(fetcher.py:80-141) over a scripted sequence of page outcomes (`.error` is an
exception from `execute`, which breaks the loop; an exhausted script ends the
run).  After each processed page the checkpoint test
`total_matched % SAVE_INTERVAL == 0` runs once (fetcher.py:125-126), then the
`hasNextPage` test (fetcher.py:129-131).  An extraction exception propagates
(it is outside the `try` of fetcher.py:91-95). -/
def searchGo (lf : Option String) (maxRepos : Nat) (outputPath : Bool)
    (script : List (Except Unit Page)) (reqs matched fetched : Nat)
    (repos : List Val) (saves : List Nat) : Except String SearchRun :=
  if maxRepos ≤ matched then .ok (finishRun outputPath repos reqs matched saves)
  else
    match script with
    | [] => .ok (finishRun outputPath repos reqs matched saves)
    | .error _ :: _ => .ok (finishRun outputPath repos (reqs + 1) matched saves)
    | .ok page :: rest =>
      if page.nodes.isEmpty then
        .ok (finishRun outputPath repos (reqs + 1) matched saves)
      else do
        let s ← processNodes lf maxRepos page.nodes matched fetched repos
        let saves' :=
          if outputPath && s.1 % SAVE_INTERVAL == 0 && !s.2.2.isEmpty
          then saves ++ [s.1] else saves
        if !page.hasNextPage then
          .ok (finishRun outputPath s.2.2 (reqs + 1) s.1 saves')
        else searchGo lf maxRepos outputPath rest (reqs + 1) s.1 s.2.1 s.2.2 saves'

/-- `search_repositories(query, max_repos, output_path, location_filter)`
from its initial state (fetcher.py:64-67). -/
def search_repositories (lf : Option String) (maxRepos : Nat)
    (outputPath : Bool) (script : List (Except Unit Page)) :
    Except String SearchRun :=
  searchGo lf maxRepos outputPath script 0 0 0 [] []

/-- Reference accumulation: the records of one page that pass extraction and
the location filter, with no cap and no cursor logic. -/
def matchedOfNodes (lf : Option String) : List Val → Except String (List Val)
  | [] => .ok []
  | node :: rest =>
    if truthy node then do
      let r ← extract_repo_data node
      let keep ← keepTest lf r
      let tl ← matchedOfNodes lf rest
      pure (if keep then r :: tl else tl)
    else matchedOfNodes lf rest

/-- Reference accumulation over a sequence of pages. -/
def matchedOfPages (lf : Option String) : List Page → Except String (List Val)
  | [] => .ok []
  | p :: rest => do
      let a ← matchedOfNodes lf p.nodes
      let b ← matchedOfPages lf rest
      pure (a ++ b)

end GF

namespace GF

theorem processNodes_below (lf : Option String) (maxRepos : Nat)
    (nodes : List Val) :
    ∀ (matched fetched : Nat) (repos ms : List Val),
    matchedOfNodes lf nodes = .ok ms →
    matched + ms.length < maxRepos →
    ∃ f', processNodes lf maxRepos nodes matched fetched repos
      = .ok (matched + ms.length, f', repos ++ ms) := by
  induction nodes with
  | nil =>
    intro matched fetched repos ms hm hlt
    simp [matchedOfNodes] at hm
    subst hm
    exact ⟨fetched, by simp [processNodes]⟩
  | cons node rest ih =>
    intro matched fetched repos ms hm hlt
    rw [matchedOfNodes] at hm
    rw [processNodes]
    by_cases ht : truthy node = true
    · rw [if_pos ht] at hm
      cases hext : extract_repo_data node with
      | error e => rw [hext, exBind_error] at hm; exact absurd hm (by simp)
      | ok r =>
        rw [hext, exBind_ok] at hm
        cases hkeep : keepTest lf r with
        | error e => rw [hkeep, exBind_error] at hm; exact absurd hm (by simp)
        | ok keep =>
          rw [hkeep, exBind_ok] at hm
          cases hrec : matchedOfNodes lf rest with
          | error e => rw [hrec, exBind_error] at hm; exact absurd hm (by simp)
          | ok tl =>
            rw [hrec, exBind_ok, exPure] at hm
            by_cases hk : keep = true
            · rw [if_pos hk] at hm
              have hms : ms = r :: tl := by cases hm; rfl
              rw [hms] at hlt ⊢
              have hnb : ¬ (maxRepos ≤ matched + 1) := by
                simp at hlt; omega
              obtain ⟨f', hf⟩ := ih (matched + 1) (fetched + 1) (repos ++ [r]) tl
                hrec (by simp at hlt; omega)
              refine ⟨f', ?_⟩
              simp only [if_pos ht, hext, exBind_ok, hkeep, if_pos hk,
                if_neg hnb, hf]
              have h1 : matched + 1 + tl.length = matched + (r :: tl).length := by
                simp [List.length_cons]; omega
              have h2 : repos ++ [r] ++ tl = repos ++ r :: tl := by simp
              rw [h1, h2]
            · rw [if_neg hk] at hm
              have hms : ms = tl := by cases hm; rfl
              rw [hms] at hlt ⊢
              obtain ⟨f', hf⟩ := ih matched (fetched + 1) repos tl hrec hlt
              refine ⟨f', ?_⟩
              simp only [if_pos ht, hext, exBind_ok, hkeep, if_neg hk, hf]
    · rw [if_neg ht] at hm
      rw [if_neg ht]
      exact ih matched fetched repos ms hm hlt

end GF

namespace GF

theorem processNodes_cross (lf : Option String) (maxRepos : Nat)
    (nodes : List Val) :
    ∀ (matched fetched : Nat) (repos ms : List Val),
    matchedOfNodes lf nodes = .ok ms →
    matched < maxRepos → maxRepos ≤ matched + ms.length →
    ∃ f', processNodes lf maxRepos nodes matched fetched repos
      = .ok (maxRepos, f', repos ++ ms.take (maxRepos - matched)) := by
  induction nodes with
  | nil =>
    intro matched fetched repos ms hm hlt hge
    simp [matchedOfNodes] at hm
    subst hm
    simp at hge
    omega
  | cons node rest ih =>
    intro matched fetched repos ms hm hlt hge
    rw [matchedOfNodes] at hm
    rw [processNodes]
    by_cases ht : truthy node = true
    · rw [if_pos ht] at hm
      cases hext : extract_repo_data node with
      | error e => rw [hext, exBind_error] at hm; exact absurd hm (by simp)
      | ok r =>
        rw [hext, exBind_ok] at hm
        cases hkeep : keepTest lf r with
        | error e => rw [hkeep, exBind_error] at hm; exact absurd hm (by simp)
        | ok keep =>
          rw [hkeep, exBind_ok] at hm
          cases hrec : matchedOfNodes lf rest with
          | error e => rw [hrec, exBind_error] at hm; exact absurd hm (by simp)
          | ok tl =>
            rw [hrec, exBind_ok, exPure] at hm
            by_cases hk : keep = true
            · rw [if_pos hk] at hm
              have hms : ms = r :: tl := by cases hm; rfl
              rw [hms] at hge ⊢
              by_cases hbreak : maxRepos ≤ matched + 1
              · refine ⟨fetched + 1, ?_⟩
                simp only [if_pos ht, hext, exBind_ok, hkeep, if_pos hk,
                  if_pos hbreak]
                have hmr : maxRepos = matched + 1 := by omega
                subst hmr
                have h1 : matched + 1 - matched = 1 := by omega
                rw [h1, List.take_succ_cons, List.take_zero]
              · obtain ⟨f', hf⟩ := ih (matched + 1) (fetched + 1) (repos ++ [r]) tl
                  hrec (by omega) (by simp at hge; omega)
                refine ⟨f', ?_⟩
                simp only [if_pos ht, hext, exBind_ok, hkeep, if_pos hk,
                  if_neg hbreak, hf]
                have h1 : maxRepos - matched = (maxRepos - (matched + 1)) + 1 := by
                  omega
                rw [h1, List.take_succ_cons]
                simp
            · rw [if_neg hk] at hm
              have hms : ms = tl := by cases hm; rfl
              rw [hms] at hge ⊢
              obtain ⟨f', hf⟩ := ih matched (fetched + 1) repos tl hrec hlt hge
              refine ⟨f', ?_⟩
              simp only [if_pos ht, hext, exBind_ok, hkeep, if_neg hk, hf]
    · rw [if_neg ht] at hm
      rw [if_neg ht]
      exact ih matched fetched repos ms hm hlt hge

theorem processNodes_bounds (lf : Option String) (maxRepos : Nat)
    (nodes : List Val) :
    ∀ (matched fetched : Nat) (repos : List Val) (m' f' : Nat) (repos' : List Val),
    processNodes lf maxRepos nodes matched fetched repos = .ok (m', f', repos') →
    matched ≤ m' ∧ repos'.length + matched = repos.length + m' ∧
      (matched < maxRepos → m' ≤ maxRepos) := by
  induction nodes with
  | nil =>
    intro matched fetched repos m' f' repos' hp
    simp [processNodes] at hp
    obtain ⟨h1, h2, h3⟩ := hp
    subst h1; subst h3
    exact ⟨le_refl _, rfl, fun h => le_of_lt h⟩
  | cons node rest ih =>
    intro matched fetched repos m' f' repos' hp
    rw [processNodes] at hp
    by_cases ht : truthy node = true
    · rw [if_pos ht] at hp
      cases hext : extract_repo_data node with
      | error e => rw [hext, exBind_error] at hp; exact absurd hp (by simp)
      | ok r =>
        rw [hext, exBind_ok] at hp
        cases hkeep : keepTest lf r with
        | error e => rw [hkeep, exBind_error] at hp; exact absurd hp (by simp)
        | ok keep =>
          rw [hkeep, exBind_ok] at hp
          by_cases hk : keep = true
          · rw [if_pos hk] at hp
            by_cases hbreak : maxRepos ≤ matched + 1
            · rw [if_pos hbreak] at hp
              simp at hp
              obtain ⟨h1, h2, h3⟩ := hp
              subst h1; subst h3
              refine ⟨by omega, by simp; omega, fun h => by omega⟩
            · rw [if_neg hbreak] at hp
              obtain ⟨g1, g2, g3⟩ := ih (matched + 1) (fetched + 1)
                (repos ++ [r]) m' f' repos' hp
              simp at g2
              exact ⟨by omega, by omega, fun h => g3 (by omega)⟩
          · rw [if_neg hk] at hp
            exact ih matched (fetched + 1) repos m' f' repos' hp
    · rw [if_neg ht] at hp
      exact ih matched fetched repos m' f' repos' hp

end GF

namespace GF

theorem isEmpty_false_of_ne_nil {l : List Val} (h : l ≠ []) : l.isEmpty = false := by
  cases l with
  | nil => exact absurd rfl h
  | cons a t => rfl

theorem searchGo_cap (lf : Option String) (maxRepos : Nat) (op : Bool)
    (script : List (Except Unit Page)) :
    ∀ (reqs matched fetched : Nat) (repos : List Val) (saves : List Nat)
      (r : SearchRun),
    searchGo lf maxRepos op script reqs matched fetched repos saves = .ok r →
    matched ≤ maxRepos → repos.length = matched →
    r.repos.length ≤ maxRepos := by
  induction script with
  | nil =>
    intro reqs matched fetched repos saves r h hle hlen
    rw [searchGo.eq_def] at h
    by_cases hm : maxRepos ≤ matched
    · rw [if_pos hm] at h
      cases h
      simpa [finishRun, hlen] using hle
    · rw [if_neg hm] at h
      cases h
      simpa [finishRun, hlen] using hle
  | cons page rest ih =>
    intro reqs matched fetched repos saves r h hle hlen
    rw [searchGo.eq_def] at h
    by_cases hm : maxRepos ≤ matched
    · rw [if_pos hm] at h
      cases h
      simpa [finishRun, hlen] using hle
    · rw [if_neg hm] at h
      cases page with
      | error e =>
        simp only at h
        cases h
        simpa [finishRun, hlen] using hle
      | ok pg =>
        simp only at h
        by_cases hemp : pg.nodes.isEmpty = true
        · rw [if_pos hemp] at h
          cases h
          simpa [finishRun, hlen] using hle
        · rw [if_neg hemp] at h
          cases hp : processNodes lf maxRepos pg.nodes matched fetched repos with
          | error e => rw [hp, exBind_error] at h; exact absurd h (by simp)
          | ok s =>
            rw [hp, exBind_ok] at h
            obtain ⟨m', f', rp'⟩ := s
            obtain ⟨g1, g2, g3⟩ :=
              processNodes_bounds lf maxRepos pg.nodes matched fetched repos
                m' f' rp' hp
            have hm' : m' ≤ maxRepos := g3 (by omega)
            have hlen' : rp'.length = m' := by omega
            by_cases hnp : pg.hasNextPage = true
            · rw [hnp] at h
              simp only [Bool.not_true, Bool.false_eq_true, if_false] at h
              exact ih _ _ _ _ _ _ h hm' hlen'
            · have hnp' : pg.hasNextPage = false := by
                cases hq : pg.hasNextPage
                · rfl
                · exact absurd hq hnp
              rw [hnp'] at h
              simp only [Bool.not_false, if_true] at h
              cases h
              simpa [finishRun, hlen'] using hm'

end GF

namespace GF

theorem matchedOfPages_cons_ok {lf : Option String} {p : Page} {ps : List Page}
    {M : List Val} (h : matchedOfPages lf (p :: ps) = .ok M) :
    ∃ a b, matchedOfNodes lf p.nodes = .ok a ∧ matchedOfPages lf ps = .ok b
      ∧ M = a ++ b := by
  rw [matchedOfPages] at h
  cases ha : matchedOfNodes lf p.nodes with
  | error e => rw [ha, exBind_error] at h; exact absurd h (by simp)
  | ok a =>
    rw [ha, exBind_ok] at h
    cases hb : matchedOfPages lf ps with
    | error e => rw [hb, exBind_error] at h; exact absurd h (by simp)
    | ok b =>
      rw [hb, exBind_ok, exPure] at h
      exact ⟨a, b, rfl, rfl, by cases h; rfl⟩

theorem searchGo_run (lf : Option String) (maxRepos : Nat) (op : Bool)
    (pre : List Page) :
    ∀ (last : Page) (rest : List (Except Unit Page)) (reqs matched fetched : Nat)
      (repos : List Val) (saves : List Nat) (M : List Val),
    (∀ p ∈ pre, p.hasNextPage = true ∧ p.nodes ≠ []) →
    last.nodes ≠ [] → last.hasNextPage = false →
    matchedOfPages lf (pre ++ [last]) = .ok M →
    matched + M.length < maxRepos →
    ∃ sv, searchGo lf maxRepos op (pre.map .ok ++ .ok last :: rest)
        reqs matched fetched repos saves
      = .ok ⟨repos ++ M, reqs + pre.length + 1, sv⟩ := by
  induction pre with
  | nil =>
    intro last rest reqs matched fetched repos saves M hpre hln hlf hM hlt
    obtain ⟨a, b, ha, hb, hab⟩ := matchedOfPages_cons_ok hM
    have hb0 : ([] : List Val) = b := by simpa [matchedOfPages] using hb
    subst hb0
    have hM' : M = a := by simpa using hab
    rw [hM'] at hlt ⊢
    have hm : ¬ (maxRepos ≤ matched) := by omega
    obtain ⟨f', hf⟩ := processNodes_below lf maxRepos last.nodes matched fetched
      repos a ha hlt
    rw [List.map_nil, List.nil_append, searchGo.eq_def, if_neg hm]
    simp only [isEmpty_false_of_ne_nil hln, Bool.false_eq_true, if_false,
      hf, exBind_ok, hlf, Bool.not_false, if_true]
    exact ⟨_, rfl⟩
  | cons p pre' ih =>
    intro last rest reqs matched fetched repos saves M hpre hln hlf hM hlt
    have hp1 : p.hasNextPage = true ∧ p.nodes ≠ [] := hpre p (by simp)
    have hpre' : ∀ q ∈ pre', q.hasNextPage = true ∧ q.nodes ≠ [] :=
      fun q hq => hpre q (by simp [hq])
    rw [List.cons_append] at hM
    obtain ⟨a, b, ha, hb, hab⟩ := matchedOfPages_cons_ok hM
    subst hab
    have hm : ¬ (maxRepos ≤ matched) := by omega
    have hlta : matched + a.length < maxRepos := by
      simp at hlt; omega
    obtain ⟨f', hf⟩ := processNodes_below lf maxRepos p.nodes matched fetched
      repos a ha hlta
    obtain ⟨sv, hsv⟩ := ih last rest (reqs + 1) (matched + a.length) f'
      (repos ++ a) (if op && (matched + a.length) % SAVE_INTERVAL == 0
          && !(repos ++ a).isEmpty then saves ++ [matched + a.length] else saves)
      b hpre' hln hlf hb (by simp at hlt; omega)
    refine ⟨sv, ?_⟩
    rw [List.map_cons, List.cons_append, searchGo.eq_def, if_neg hm]
    simp only [isEmpty_false_of_ne_nil hp1.2, Bool.false_eq_true, if_false,
      hf, exBind_ok, hp1.1, Bool.not_true, if_false]
    rw [hsv]
    have h1 : reqs + 1 + pre'.length + 1 = reqs + (p :: pre').length + 1 := by
      simp; omega
    rw [h1, List.append_assoc]

end GF

namespace GF

theorem searchGo_maxstop (lf : Option String) (maxRepos : Nat) (op : Bool)
    (pre : List Page) :
    ∀ (pj : Page) (rest : List (Except Unit Page)) (reqs matched fetched : Nat)
      (repos : List Val) (saves : List Nat) (Mpre Mall : List Val),
    (∀ p ∈ pre, p.hasNextPage = true ∧ p.nodes ≠ []) →
    pj.nodes ≠ [] →
    matchedOfPages lf pre = .ok Mpre →
    matched + Mpre.length < maxRepos →
    matchedOfPages lf (pre ++ [pj]) = .ok Mall →
    maxRepos ≤ matched + Mall.length →
    ∃ sv, searchGo lf maxRepos op (pre.map .ok ++ .ok pj :: rest)
        reqs matched fetched repos saves
      = .ok ⟨repos ++ Mall.take (maxRepos - matched), reqs + pre.length + 1, sv⟩ := by
  induction pre with
  | nil =>
    intro pj rest reqs matched fetched repos saves Mpre Mall hpre hpn hMpre hlt
      hMall hge
    obtain ⟨a, b, ha, hb, hab⟩ := matchedOfPages_cons_ok hMall
    have hb0 : ([] : List Val) = b := by simpa [matchedOfPages] using hb
    subst hb0
    have hM' : Mall = a := by simpa using hab
    rw [hM'] at hge ⊢
    have hmlt : matched < maxRepos := by omega
    have hm : ¬ (maxRepos ≤ matched) := by omega
    obtain ⟨f', hf⟩ := processNodes_cross lf maxRepos pj.nodes matched fetched
      repos a ha hmlt hge
    rw [List.map_nil, List.nil_append, searchGo.eq_def, if_neg hm]
    simp only [isEmpty_false_of_ne_nil hpn, Bool.false_eq_true, if_false,
      hf, exBind_ok]
    by_cases hnp : pj.hasNextPage = true
    · simp only [hnp, Bool.not_true, Bool.false_eq_true, if_false]
      rw [searchGo.eq_def, if_pos (le_refl maxRepos)]
      exact ⟨_, rfl⟩
    · have hnp' : pj.hasNextPage = false := by
        cases hq : pj.hasNextPage
        · rfl
        · exact absurd hq hnp
      simp only [hnp', Bool.not_false, if_true]
      exact ⟨_, rfl⟩
  | cons p pre' ih =>
    intro pj rest reqs matched fetched repos saves Mpre Mall hpre hpn hMpre hlt
      hMall hge
    have hp1 : p.hasNextPage = true ∧ p.nodes ≠ [] := hpre p (by simp)
    have hpre' : ∀ q ∈ pre', q.hasNextPage = true ∧ q.nodes ≠ [] :=
      fun q hq => hpre q (by simp [hq])
    obtain ⟨a, bp, ha, hbp, habp⟩ := matchedOfPages_cons_ok hMpre
    rw [List.cons_append] at hMall
    obtain ⟨a2, ball, ha2, hball, haball⟩ := matchedOfPages_cons_ok hMall
    rw [ha] at ha2
    have ha2' : a2 = a := by cases ha2; rfl
    rw [ha2'] at haball
    subst habp
    subst haball
    have hm : ¬ (maxRepos ≤ matched) := by omega
    have hlta : matched + a.length < maxRepos := by
      simp at hlt; omega
    obtain ⟨f', hf⟩ := processNodes_below lf maxRepos p.nodes matched fetched
      repos a ha hlta
    obtain ⟨sv, hsv⟩ := ih pj rest (reqs + 1) (matched + a.length) f'
      (repos ++ a) (if op && (matched + a.length) % SAVE_INTERVAL == 0
          && !(repos ++ a).isEmpty then saves ++ [matched + a.length] else saves)
      bp ball hpre' hpn hbp (by simp at hlt; omega) hball
      (by simp at hge; omega)
    refine ⟨sv, ?_⟩
    rw [List.map_cons, List.cons_append, searchGo.eq_def, if_neg hm]
    simp only [isEmpty_false_of_ne_nil hp1.2, Bool.false_eq_true, if_false,
      hf, exBind_ok, hp1.1, Bool.not_true, if_false]
    rw [hsv]
    have h1 : reqs + 1 + pre'.length + 1 = reqs + (p :: pre').length + 1 := by
      simp; omega
    have h2 : (a ++ ball).take (maxRepos - matched)
        = a ++ ball.take (maxRepos - (matched + a.length)) := by
      rw [List.take_append_eq_append_take]
      have h3 : a.take (maxRepos - matched) = a :=
        List.take_of_length_le (by omega)
      have h4 : maxRepos - matched - a.length = maxRepos - (matched + a.length) := by
        omega
      rw [h3, h4]
    rw [h1, List.append_assoc, ← h2]

end GF

namespace GF

/-- C4: for every scripted page sequence, the driver returns at most
`max_repos` records; once a page reports `hasNextPage=false` it issues no
further requests and returns exactly the filtered records accumulated up to
and including that page; and as soon as the matched count reaches the
requested maximum it stops appending (even mid-page) and issues no further
requests. -/
theorem search_pagination_stop (lf : Option String) (maxRepos : Nat) (op : Bool) :
    (∀ (script : List (Except Unit Page)) (r : SearchRun),
      search_repositories lf maxRepos op script = .ok r →
      r.repos.length ≤ maxRepos)
    ∧ (∀ (pre : List Page) (last : Page) (rest : List (Except Unit Page))
        (M : List Val),
      (∀ p ∈ pre, p.hasNextPage = true ∧ p.nodes ≠ []) →
      last.nodes ≠ [] → last.hasNextPage = false →
      matchedOfPages lf (pre ++ [last]) = .ok M → M.length < maxRepos →
      ∃ sv, search_repositories lf maxRepos op (pre.map .ok ++ .ok last :: rest)
        = .ok ⟨M, pre.length + 1, sv⟩)
    ∧ (∀ (pre : List Page) (pj : Page) (rest : List (Except Unit Page))
        (Mpre Mall : List Val),
      (∀ p ∈ pre, p.hasNextPage = true ∧ p.nodes ≠ []) →
      pj.nodes ≠ [] →
      matchedOfPages lf pre = .ok Mpre → Mpre.length < maxRepos →
      matchedOfPages lf (pre ++ [pj]) = .ok Mall → maxRepos ≤ Mall.length →
      ∃ sv, search_repositories lf maxRepos op (pre.map .ok ++ .ok pj :: rest)
        = .ok ⟨Mall.take maxRepos, pre.length + 1, sv⟩) := by
  refine ⟨?_, ?_, ?_⟩
  · intro script r h
    exact searchGo_cap lf maxRepos op script 0 0 0 [] [] r h (Nat.zero_le _) rfl
  · intro pre last rest M hpre hln hlf hM hlt
    obtain ⟨sv, hsv⟩ := searchGo_run lf maxRepos op pre last rest 0 0 0 [] [] M
      hpre hln hlf hM (by omega)
    refine ⟨sv, ?_⟩
    simpa [search_repositories] using hsv
  · intro pre pj rest Mpre Mall hpre hpn hMpre hltp hMall hge
    obtain ⟨sv, hsv⟩ := searchGo_maxstop lf maxRepos op pre pj rest 0 0 0 [] []
      Mpre Mall hpre hpn hMpre (by omega) hMall (by omega)
    refine ⟨sv, ?_⟩
    simpa [search_repositories] using hsv

/-- Concrete repository node used by driver witnesses: a truthy object with no
documented keys, so it extracts to the fully-defaulted record. -/
def wNode : Val := .vobj [("x", .vint 1)]

/-- The fully-defaulted record as a value. -/
def defRecV : Val := .vobj defaultRecord

/-- C4 (witness): the pagination theorem applied to a concrete two-page script
whose second page reports `hasNextPage=false`, followed by an unreachable
erroring request. -/
theorem search_pagination_stop_witness :
    ∃ sv, search_repositories none 5 false
      [.ok ⟨[wNode], true⟩, .ok ⟨[wNode], false⟩, .error ()]
      = .ok ⟨[defRecV, defRecV], 2, sv⟩ :=
  (search_pagination_stop none 5 false).2.1 [⟨[wNode], true⟩] ⟨[wNode], false⟩
    [.error ()] [defRecV, defRecV]
    (by intro p hp; simp at hp; subst hp; exact ⟨rfl, by decide⟩)
    (by decide) rfl rfl (by decide)

end GF

namespace GF

theorem extract_wNode : extract_repo_data wNode = .ok defRecV := rfl

theorem processNodes_wNode (maxRepos : Nat) :
    ∀ (k matched fetched : Nat) (repos : List Val),
    matched + k ≤ maxRepos →
    processNodes none maxRepos (List.replicate k wNode) matched fetched repos
      = .ok (matched + k, fetched + k, repos ++ List.replicate k defRecV) := by
  intro k
  induction k with
  | zero =>
    intro matched fetched repos hle
    simp [processNodes]
  | succ k ihk =>
    intro matched fetched repos hle
    rw [List.replicate_succ, processNodes]
    have ht : truthy wNode = true := rfl
    have hkt : keepTest none defRecV = .ok true := rfl
    simp only [ht, if_true, extract_wNode, exBind_ok, hkt]
    by_cases hb : maxRepos ≤ matched + 1
    · have hk0 : k = 0 := by omega
      subst hk0
      simp only [if_pos hb, List.replicate_zero, List.replicate_succ]
    · rw [if_neg hb, ihk (matched + 1) (fetched + 1)
        (repos ++ [defRecV]) (by omega)]
      have h1 : matched + 1 + k = matched + (k + 1) := by omega
      have h2 : fetched + 1 + k = fetched + (k + 1) := by omega
      have h3 : repos ++ [defRecV] ++ List.replicate k defRecV
          = repos ++ List.replicate (k + 1) defRecV := by
        rw [List.append_assoc, List.replicate_succ]
        rfl
      rw [h1, h2, h3]

/-- The matched counts at which the per-page checkpoint test fires across `p`
consecutive fully-matched pages of `n` records, starting from `matched`. -/
def sizeSaves (n matched : Nat) : Nat → List Nat
  | 0 => []
  | p + 1 =>
      (if (matched + n) % SAVE_INTERVAL == 0 then [matched + n] else [])
        ++ sizeSaves n (matched + n) p

theorem searchGo_sizeRun (maxRepos n : Nat) (hn : 0 < n) :
    ∀ (p reqs matched fetched : Nat) (saves : List Nat)
      (rest : List (Except Unit Page)),
    matched + n * p ≤ maxRepos →
    searchGo none maxRepos true
      (List.replicate p (.ok ⟨List.replicate n wNode, true⟩) ++ rest)
      reqs matched fetched (List.replicate matched defRecV) saves
    = searchGo none maxRepos true rest (reqs + p) (matched + n * p)
        (fetched + n * p) (List.replicate (matched + n * p) defRecV)
        (saves ++ sizeSaves n matched p) := by
  intro p
  induction p with
  | zero =>
    intro reqs matched fetched saves rest hle
    simp [sizeSaves]
  | succ p ihp =>
    intro reqs matched fetched saves rest hle
    have hexp : n * (p + 1) = n * p + n := by ring
    rw [hexp] at hle ⊢
    have hm : ¬ (maxRepos ≤ matched) := by omega
    rw [List.replicate_succ, List.cons_append, searchGo.eq_def, if_neg hm]
    have hne : (List.replicate n wNode).isEmpty = false := by
      cases n with
      | zero => omega
      | succ m => rfl
    simp only [hne, Bool.false_eq_true, if_false,
      processNodes_wNode maxRepos n matched fetched _ (by omega), exBind_ok,
      Bool.not_true]
    have hrep : List.replicate matched defRecV ++ List.replicate n defRecV
        = List.replicate (matched + n) defRecV := by
      rw [← List.replicate_add]
    rw [hrep]
    have hguard : (true && (matched + n) % SAVE_INTERVAL == 0
        && !(List.replicate (matched + n) defRecV).isEmpty)
        = ((matched + n) % SAVE_INTERVAL == 0) := by
      have hq : (List.replicate (matched + n) defRecV).isEmpty = false := by
        cases hq : matched + n with
        | zero => omega
        | succ m => rfl
      simp [hq]
    rw [hguard]
    rw [ihp (reqs + 1) (matched + n) (fetched + n) _ rest (by omega)]
    have h1 : reqs + 1 + p = reqs + (p + 1) := by omega
    have h2 : matched + n + n * p = matched + (n * p + n) := by omega
    have h3 : fetched + n + n * p = fetched + (n * p + n) := by omega
    have h4 : (if (matched + n) % SAVE_INTERVAL == 0
          then saves ++ [matched + n] else saves) ++ sizeSaves n (matched + n) p
        = saves ++ sizeSaves n matched (p + 1) := by
      rw [sizeSaves]
      by_cases hq : (matched + n) % SAVE_INTERVAL == 0
      · simp [hq]
      · simp [hq]
    rw [h1, h2, h3, h4]

end GF

namespace GF

theorem replicate_isEmpty_false (m : Nat) (hm : 0 < m) :
    (List.replicate m defRecV).isEmpty = false := by
  cases m with
  | zero => omega
  | succ k => rfl

theorem searchGo_maxFinish (maxRepos reqs matched fetched : Nat)
    (saves : List Nat) (script : List (Except Unit Page))
    (hm : maxRepos ≤ matched) (hmat : 0 < matched) :
    searchGo none maxRepos true script reqs matched fetched
      (List.replicate matched defRecV) saves
    = .ok ⟨List.replicate matched defRecV, reqs, saves ++ [matched]⟩ := by
  rw [searchGo.eq_def, if_pos hm]
  simp [finishRun, replicate_isEmpty_false matched hmat]

theorem searchGo_errorStep (maxRepos reqs matched fetched : Nat)
    (saves : List Nat) (rest : List (Except Unit Page))
    (hm : matched < maxRepos) (hmat : 0 < matched) :
    searchGo none maxRepos true (.error () :: rest) reqs matched fetched
      (List.replicate matched defRecV) saves
    = .ok ⟨List.replicate matched defRecV, reqs + 1, saves ++ [matched]⟩ := by
  rw [searchGo.eq_def, if_neg (not_le.mpr hm)]
  simp [finishRun, replicate_isEmpty_false matched hmat]

theorem searchGo_lastPage (maxRepos n reqs matched fetched : Nat)
    (saves : List Nat) (hm : matched < maxRepos) (hn : 0 < n)
    (hnb : matched + n ≤ maxRepos) :
    searchGo none maxRepos true [.ok ⟨List.replicate n wNode, false⟩]
      reqs matched fetched (List.replicate matched defRecV) saves
    = .ok ⟨List.replicate (matched + n) defRecV, reqs + 1,
        (if (matched + n) % SAVE_INTERVAL == 0 then saves ++ [matched + n]
          else saves) ++ [matched + n]⟩ := by
  rw [searchGo.eq_def, if_neg (not_le.mpr hm)]
  have hne : (List.replicate n wNode).isEmpty = false := by
    cases n with
    | zero => omega
    | succ m => rfl
  simp only [hne, Bool.false_eq_true, if_false,
    processNodes_wNode maxRepos n matched fetched _ hnb, exBind_ok,
    Bool.not_false, if_true]
  have hrep : List.replicate matched defRecV ++ List.replicate n defRecV
      = List.replicate (matched + n) defRecV := by
    rw [← List.replicate_add]
  rw [hrep]
  have hguard : (true && (matched + n) % SAVE_INTERVAL == 0
      && !(List.replicate (matched + n) defRecV).isEmpty)
      = ((matched + n) % SAVE_INTERVAL == 0) := by
    simp [replicate_isEmpty_false (matched + n) (by omega)]
  rw [hguard]
  simp only [finishRun, replicate_isEmpty_false (matched + n) (by omega)]
  by_cases hq : ((matched + n) % SAVE_INTERVAL == 0) = true
  · simp [hq]
  · simp [hq]

theorem fullRun_from_zero (maxRepos n p : Nat) (hn : 0 < n)
    (rest : List (Except Unit Page)) (hle : n * p ≤ maxRepos) :
    search_repositories none maxRepos true
      (List.replicate p (.ok ⟨List.replicate n wNode, true⟩) ++ rest)
    = searchGo none maxRepos true rest p (n * p) (n * p)
        (List.replicate (n * p) defRecV) (sizeSaves n 0 p) := by
  rw [search_repositories]
  have h0 : ([] : List Val) = List.replicate 0 defRecV := rfl
  rw [h0, searchGo_sizeRun maxRepos n hn p 0 0 0 [] rest (by omega)]
  simp

end GF

namespace GF

/-- C5 (counterexample): a run with an output path that accumulates exactly
250 matched records (27 pages of 9 and a final page of 7) never invokes the
persistence sink at matched count 100 — the checkpoint test runs once per
page, and no page boundary of this run lands on a multiple of 100, so the only
write is the final flush at 250.  This refutes the claim that every 250-match
run checkpoints at 100 and 200. -/
theorem checkpoint_cadence_cex :
    search_repositories none 1000 true
      (List.replicate 27 (.ok ⟨List.replicate 9 wNode, true⟩)
        ++ [.ok ⟨List.replicate 7 wNode, false⟩])
      = .ok ⟨List.replicate 250 defRecV, 28, [250]⟩
    ∧ (100 : Nat) ∉ ([250] : List Nat) := by
  constructor
  · rw [fullRun_from_zero 1000 9 27 (by norm_num) _ (by norm_num)]
    have h1 : (9 * 27 : Nat) = 243 := by norm_num
    rw [h1]
    have hs : sizeSaves 9 0 27 = [] := by decide
    rw [hs, searchGo_lastPage 1000 7 27 243 243 [] (by norm_num) (by norm_num)
      (by norm_num)]
    norm_num [SAVE_INTERVAL]
  · decide

/-- C5 (amended): the checkpoint test runs once per page, invoking the sink
when the page-end matched count is a multiple of 100 with a non-empty buffer;
in a run of full 10-record pages accumulating exactly 250 matched records with
an output path, the sink is invoked at 100, at 200, and once more at operation
end as the final flush at 250, whatever ended the loop — max reached, end of
results, or a request error; runs whose page boundaries skip the multiples of
100 (short or filtered pages) skip those checkpoints. -/
theorem checkpoint_cadence_pages :
    search_repositories none 250 true
      (List.replicate 25 (.ok ⟨List.replicate 10 wNode, true⟩) ++ [.error ()])
      = .ok ⟨List.replicate 250 defRecV, 25, [100, 200, 250]⟩
    ∧ search_repositories none 1000 true
      (List.replicate 24 (.ok ⟨List.replicate 10 wNode, true⟩)
        ++ [.ok ⟨List.replicate 10 wNode, false⟩])
      = .ok ⟨List.replicate 250 defRecV, 25, [100, 200, 250]⟩
    ∧ search_repositories none 1000 true
      (List.replicate 25 (.ok ⟨List.replicate 10 wNode, true⟩) ++ [.error ()])
      = .ok ⟨List.replicate 250 defRecV, 26, [100, 200, 250]⟩ := by
  refine ⟨?_, ?_, ?_⟩
  · rw [fullRun_from_zero 250 10 25 (by norm_num) _ (by norm_num)]
    have h1 : (10 * 25 : Nat) = 250 := by norm_num
    rw [h1]
    have hs : sizeSaves 10 0 25 = [100, 200] := by decide
    rw [hs, searchGo_maxFinish 250 25 250 250 [100, 200] [.error ()]
      (le_refl 250) (by norm_num)]
    rfl
  · rw [fullRun_from_zero 1000 10 24 (by norm_num) _ (by norm_num)]
    have h1 : (10 * 24 : Nat) = 240 := by norm_num
    rw [h1]
    have hs : sizeSaves 10 0 24 = [100, 200] := by decide
    rw [hs, searchGo_lastPage 1000 10 24 240 240 [100, 200] (by norm_num)
      (by norm_num) (by norm_num)]
    norm_num [SAVE_INTERVAL]
  · rw [fullRun_from_zero 1000 10 25 (by norm_num) _ (by norm_num)]
    have h1 : (10 * 25 : Nat) = 250 := by norm_num
    rw [h1]
    have hs : sizeSaves 10 0 25 = [100, 200] := by decide
    rw [hs, searchGo_errorStep 1000 25 250 250 [100, 200] [] (by norm_num)
      (by norm_num)]
    rfl

end GF

namespace GF

/-! ## User discovery `_fetch_users_with_date_split`, `_paginated_user_search`
(fetcher.py:284-379) and the two-step orchestrator (fetcher.py:381-494) -/

/-- One decoded user-search page (login nodes plus the has-more flag). -/
structure UPage where
  nodes : List Val
  hasNextPage : Bool
  deriving DecidableEq

/-- The node loop of `_paginated_user_search` (fetcher.py:369-373):
`if node and node.get('login'): users.append(node['login'])`, breaking once
`max_count` logins are collected. -/
def collectLogins (maxCount : Nat) : List Val → List Val → Except String (List Val)
  | [], users => .ok users
  | node :: rest, users =>
    if truthy node then do
      let lv ← pyGet node "login"
      if truthy lv then
        let users' := users ++ [lv]
        if maxCount ≤ users'.length then .ok users'
        else collectLogins maxCount rest users'
      else collectLogins maxCount rest users
    else collectLogins maxCount rest users

/-- The `while len(users) < max_count` loop of `_paginated_user_search`
(fetcher.py:350-377) over scripted pages; a request exception breaks the
loop; page sizes are already embodied by the script (the code asks for
`min(100, max_count - len(users))` per request). -/
def paginatedGo (maxCount : Nat) (script : List (Except Unit UPage))
    (users : List Val) : Except String (List Val) :=
  if maxCount ≤ users.length then .ok users
  else
    match script with
    | [] => .ok users
    | .error _ :: _ => .ok users
    | .ok page :: rest => do
        let users' ← collectLogins maxCount page.nodes users
        if !page.hasNextPage then .ok users'
        else paginatedGo maxCount rest users'

/-- `_paginated_user_search(query, max_count)` (fetcher.py:345-379). -/
def paginatedUserSearch (script : List (Except Unit UPage)) (maxCount : Nat) :
    Except String (List Val) :=
  paginatedGo maxCount script []

/-- Scripted remote responses for one discovery run.  The query string the
code builds is `f"{base_query} created:{s}..{e}"`, determined by the range,
so the count and page oracles are keyed on the range directly (dates are
day numbers with 2008-01-01, the hard-coded start, as day 0). -/
structure UserSearchEnv where
  countOf : Nat → Nat → Except Unit Nat
  pagesOf : Nat → Nat → List (Except Unit UPage)

/-- The `while ranges and (max_users is None or len(users) < max_users)`
condition (fetcher.py:300), user-count part. -/
def maxOk (maxUsers : Option Nat) (users : List Val) : Bool :=
  match maxUsers with
  | none => true
  | some mu => users.length < mu

/-- `if max_users and len(users) >= max_users: break` (fetcher.py:326-327):
Python truthiness makes `max_users = 0` never break. -/
def capBreak (maxUsers : Option Nat) (users : List Val) : Bool :=
  match maxUsers with
  | none => false
  | some mu => 0 < mu && mu ≤ users.length

/-- `remaining = max_users - len(users) if max_users else count`
(fetcher.py:320). -/
def remainingOf (maxUsers : Option Nat) (users : List Val) (count : Nat) : Nat :=
  match maxUsers with
  | some mu => if 0 < mu then mu - users.length else count
  | none => count

/-- The dedup-append loop of the `count ≤ 1000` branch (fetcher.py:322-327):
append logins not already present, breaking once `max_users` is reached. -/
def dedupAppendCapped (maxUsers : Option Nat) : List Val → List Val → List Val
  | users, [] => users
  | users, u :: rest =>
    if u ∈ users then dedupAppendCapped maxUsers users rest
    else
      let users' := users ++ [u]
      if capBreak maxUsers users' then users'
      else dedupAppendCapped maxUsers users' rest

/-- The dedup-append loop of the degenerate 1-day branch (fetcher.py:334-337):
no `max_users` check. -/
def dedupAppend : List Val → List Val → List Val
  | users, [] => users
  | users, u :: rest =>
    if u ∈ users then dedupAppend users rest
    else dedupAppend (users ++ [u]) rest

/-- The work-queue loop of `_fetch_users_with_date_split` (fetcher.py:299-341).
`fuel` only bounds the number of iterations (a modelling artifact for
termination); every claim holds for all fuel.  On a count exception the range
is dropped and the loop continues (fetcher.py:311-313); a zero count drops the
range (315-316); a small count is paginated and dedup-appended under the cap
(318-327); an unsplittable >1000 range fetches the first 1000 (330-337);
otherwise the two halves `(s, mid)` and `(mid+1, e)` are pushed onto the front
of the queue (339-341, two `insert(0, ...)` calls). -/
def dateSplitGo (env : UserSearchEnv) (maxUsers : Option Nat) :
    Nat → List (Nat × Nat) → List Val → Except String (List Val)
  | 0, _, users => .ok users
  | fuel + 1, ranges, users =>
    if maxOk maxUsers users then
      match ranges with
      | [] => .ok users
      | (s, e) :: rest =>
        match env.countOf s e with
        | .error _ => dateSplitGo env maxUsers fuel rest users
        | .ok count =>
          if count = 0 then dateSplitGo env maxUsers fuel rest users
          else if count ≤ 1000 then do
            let newUsers ← paginatedUserSearch (env.pagesOf s e)
              (min count (remainingOf maxUsers users count))
            dateSplitGo env maxUsers fuel rest
              (dedupAppendCapped maxUsers users newUsers)
          else
            if e - s ≤ 1 then do
              let newUsers ← paginatedUserSearch (env.pagesOf s e) 1000
              dateSplitGo env maxUsers fuel rest (dedupAppend users newUsers)
            else
              dateSplitGo env maxUsers fuel
                ((s, s + (e - s) / 2) :: (s + (e - s) / 2 + 1, e) :: rest) users
    else .ok users

/-- `_fetch_users_with_date_split(base_query, max_users)` (fetcher.py:284-343):
queue seeded with the single range [2008-01-01, today]. -/
def fetch_users_with_date_split (env : UserSearchEnv) (today : Nat)
    (maxUsers : Option Nat) (fuel : Nat) : Except String (List Val) :=
  dateSplitGo env maxUsers fuel [(0, today)] []

/-- The node loop of `_fetch_user_repos` (fetcher.py:483-488): skip null
nodes, extract every other node, no filter and no cap. -/
def extractAll : List Val → List Val → Except String (List Val)
  | [], acc => .ok acc
  | node :: rest, acc =>
    if truthy node then do
      let r ← extract_repo_data node
      extractAll rest (acc ++ [r])
    else extractAll rest acc

/-- The `while True` pagination of `_fetch_user_repos` (fetcher.py:463-494):
a request exception breaks and returns what was accumulated so far (the
account "might not exist or be inaccessible", fetcher.py:473); empty nodes or
`hasNextPage=false` end the loop; an extraction exception propagates. -/
def userReposGo : List (Except Unit Page) → List Val → Except String (List Val)
  | [], acc => .ok acc
  | .error _ :: _, acc => .ok acc
  | .ok page :: rest, acc =>
    if page.nodes.isEmpty then .ok acc
    else do
      let acc' ← extractAll page.nodes acc
      if !page.hasNextPage then .ok acc'
      else userReposGo rest acc'

/-- `_fetch_user_repos(username, ...)`: the scripted pages of one account's
search query. -/
def fetchUserRepos (script : List (Except Unit Page)) : Except String (List Val) :=
  userReposGo script []

/-- The per-account loop of `fetch_repos_for_users` (fetcher.py:409-422):
each account's repos are extended onto the shared buffer.  The periodic
`_save_progress` of this loop mirrors the one verified on the pagination
driver and is not read by any claim, so it is not tracked here. -/
def reposForUsersGo (env : String → List (Except Unit Page)) :
    List String → List Val → Except String (List Val)
  | [], acc => .ok acc
  | u :: rest, acc => do
      let ur ← fetchUserRepos (env u)
      reposForUsersGo env rest (acc ++ ur)

/-- `fetch_repos_for_users(usernames, ...)` (fetcher.py:381-433). -/
def fetch_repos_for_users (env : String → List (Except Unit Page))
    (usernames : List String) : Except String (List Val) :=
  reposForUsersGo env usernames []

end GF

namespace GF

theorem collectLogins_le (maxCount : Nat) (nodes : List Val) :
    ∀ (users us : List Val),
    collectLogins maxCount nodes users = .ok us →
    users.length < maxCount → us.length ≤ maxCount := by
  induction nodes with
  | nil =>
    intro users us h hlt
    simp [collectLogins] at h
    subst h
    omega
  | cons node rest ih =>
    intro users us h hlt
    rw [collectLogins] at h
    by_cases ht : truthy node = true
    · rw [if_pos ht] at h
      cases hlv : pyGet node "login" with
      | error e => rw [hlv, exBind_error] at h; exact absurd h (by simp)
      | ok lv =>
        rw [hlv, exBind_ok] at h
        by_cases htl : truthy lv = true
        · rw [if_pos htl] at h
          by_cases hbr : maxCount ≤ (users ++ [lv]).length
          · rw [if_pos hbr] at h
            cases h
            simp
            omega
          · rw [if_neg hbr] at h
            exact ih (users ++ [lv]) us h (by simp at hbr ⊢; omega)
        · rw [if_neg htl] at h
          exact ih users us h hlt
    · rw [if_neg ht] at h
      exact ih users us h hlt

theorem paginatedGo_le (maxCount : Nat) (script : List (Except Unit UPage)) :
    ∀ (users us : List Val),
    paginatedGo maxCount script users = .ok us →
    users.length ≤ maxCount → us.length ≤ maxCount := by
  induction script with
  | nil =>
    intro users us h hle
    rw [paginatedGo.eq_def] at h
    by_cases hc : maxCount ≤ users.length
    · rw [if_pos hc] at h; cases h; exact hle
    · rw [if_neg hc] at h; cases h; exact hle
  | cons pg rest ih =>
    intro users us h hle
    rw [paginatedGo.eq_def] at h
    by_cases hc : maxCount ≤ users.length
    · rw [if_pos hc] at h; cases h; exact hle
    · rw [if_neg hc] at h
      cases pg with
      | error e => simp only at h; cases h; exact hle
      | ok page =>
        simp only at h
        cases hcl : collectLogins maxCount page.nodes users with
        | error e => rw [hcl, exBind_error] at h; exact absurd h (by simp)
        | ok users' =>
          rw [hcl, exBind_ok] at h
          have h' : users'.length ≤ maxCount :=
            collectLogins_le maxCount page.nodes users users' hcl (by omega)
          by_cases hnp : page.hasNextPage = true
          · rw [hnp] at h
            simp only [Bool.not_true, Bool.false_eq_true, if_false] at h
            exact ih users' us h h'
          · have hnp' : page.hasNextPage = false := by
              cases hq : page.hasNextPage
              · rfl
              · exact absurd hq hnp
            rw [hnp'] at h
            simp only [Bool.not_false, if_true] at h
            cases h
            exact h'

theorem paginatedUserSearch_le (script : List (Except Unit UPage))
    (maxCount : Nat) (us : List Val)
    (h : paginatedUserSearch script maxCount = .ok us) : us.length ≤ maxCount :=
  paginatedGo_le maxCount script [] us h (Nat.zero_le _)

end GF

namespace GF

/-- C3: while the discovery loop is active, a range counting above 1000 and
spanning more than one day is split at its temporal midpoint `m = s+(e-s)/2`
into `[s,m]` and `[m+1,e]` pushed onto the front of the work queue; the two
halves cover `[s,e]` with no gap and no duplicate day; a range spanning at
most one day is never split — in that degenerate case only the first 1000
matches are fetched. -/
theorem date_range_split (env : UserSearchEnv) (mu : Option Nat)
    (fuel s e : Nat) (rest : List (Nat × Nat)) (users : List Val) (c : Nat)
    (hcond : maxOk mu users = true)
    (hcount : env.countOf s e = .ok c) (hc : 1000 < c) :
    (1 < e - s →
      (dateSplitGo env mu (fuel + 1) ((s, e) :: rest) users
        = dateSplitGo env mu fuel
            ((s, s + (e - s) / 2) :: (s + (e - s) / 2 + 1, e) :: rest) users)
      ∧ (∀ d, (s ≤ d ∧ d ≤ e) ↔
          ((s ≤ d ∧ d ≤ s + (e - s) / 2)
            ∨ (s + (e - s) / 2 + 1 ≤ d ∧ d ≤ e)))
      ∧ (∀ d, ¬ ((s ≤ d ∧ d ≤ s + (e - s) / 2)
          ∧ (s + (e - s) / 2 + 1 ≤ d ∧ d ≤ e))))
    ∧ (e - s ≤ 1 →
      (dateSplitGo env mu (fuel + 1) ((s, e) :: rest) users
        = paginatedUserSearch (env.pagesOf s e) 1000 >>=
            fun nu => dateSplitGo env mu fuel rest (dedupAppend users nu))
      ∧ ∀ nu, paginatedUserSearch (env.pagesOf s e) 1000 = .ok nu →
          nu.length ≤ 1000) := by
  constructor
  · intro hspan
    refine ⟨?_, ?_, ?_⟩
    · rw [dateSplitGo, if_pos hcond]
      simp only [hcount]
      rw [if_neg (by omega : ¬ c = 0), if_neg (by omega : ¬ c ≤ 1000),
        if_neg (by omega : ¬ e - s ≤ 1)]
    · intro d; omega
    · intro d; omega
  · intro hspan
    constructor
    · rw [dateSplitGo, if_pos hcond]
      simp only [hcount]
      rw [if_neg (by omega : ¬ c = 0), if_neg (by omega : ¬ c ≤ 1000),
        if_pos hspan]
    · intro nu hnu
      exact paginatedUserSearch_le (env.pagesOf s e) 1000 nu hnu

/-- Concrete environment for the date-split witness: every range counts 1500
and pagination yields nothing. -/
def splitWEnv : UserSearchEnv where
  countOf := fun _ _ => .ok 1500
  pagesOf := fun _ _ => []

/-- C3 (witness): the split theorem applied to the 10-day range [0,9] (split
at midpoint 4 into [0,4] and [5,9], with day 3 covered exactly once) and to
the degenerate 1-day range [0,1] (fetched with max_count 1000, not split). -/
theorem date_range_split_witness :
    (dateSplitGo splitWEnv none 6 [(0, 9)] []
      = dateSplitGo splitWEnv none 5 [(0, 4), (5, 9)] [])
    ∧ (((0 : Nat) ≤ 3 ∧ 3 ≤ 9) ↔ (((0 : Nat) ≤ 3 ∧ 3 ≤ 4) ∨ ((5 : Nat) ≤ 3 ∧ 3 ≤ 9)))
    ∧ (dateSplitGo splitWEnv none 6 [(0, 1)] []
      = paginatedUserSearch (splitWEnv.pagesOf 0 1) 1000 >>=
          fun nu => dateSplitGo splitWEnv none 5 [] (dedupAppend [] nu)) :=
  ⟨((date_range_split splitWEnv none 5 0 9 [] [] 1500 rfl rfl (by norm_num)).1
      (by norm_num)).1,
   (((date_range_split splitWEnv none 5 0 9 [] [] 1500 rfl rfl (by norm_num)).1
      (by norm_num)).2.1 3),
   ((date_range_split splitWEnv none 5 0 1 [] [] 1500 rfl rfl (by norm_num)).2
      (by norm_num)).1⟩

end GF

namespace GF

theorem nodup_append_singleton {users : List Val} {u : Val}
    (hnd : users.Nodup) (hu : u ∉ users) : (users ++ [u]).Nodup := by
  simp [List.nodup_append, hnd, hu]

theorem dedupAppend_nodup : ∀ (new users : List Val),
    users.Nodup → (dedupAppend users new).Nodup := by
  intro new
  induction new with
  | nil => intro users hnd; simpa [dedupAppend] using hnd
  | cons u rest ih =>
    intro users hnd
    rw [dedupAppend]
    by_cases hu : u ∈ users
    · rw [if_pos hu]; exact ih users hnd
    · rw [if_neg hu]; exact ih (users ++ [u]) (nodup_append_singleton hnd hu)

theorem dedupAppend_le : ∀ (new users : List Val),
    (dedupAppend users new).length ≤ users.length + new.length := by
  intro new
  induction new with
  | nil => intro users; simp [dedupAppend]
  | cons u rest ih =>
    intro users
    rw [dedupAppend]
    by_cases hu : u ∈ users
    · rw [if_pos hu]
      have := ih users
      simp at this ⊢
      omega
    · rw [if_neg hu]
      have := ih (users ++ [u])
      simp at this ⊢
      omega

theorem dedupAppendCapped_nodup (mu : Option Nat) : ∀ (new users : List Val),
    users.Nodup → (dedupAppendCapped mu users new).Nodup := by
  intro new
  induction new with
  | nil => intro users hnd; simpa [dedupAppendCapped] using hnd
  | cons u rest ih =>
    intro users hnd
    rw [dedupAppendCapped]
    by_cases hu : u ∈ users
    · rw [if_pos hu]; exact ih users hnd
    · rw [if_neg hu]
      by_cases hbr : capBreak mu (users ++ [u]) = true
      · rw [if_pos hbr]; exact nodup_append_singleton hnd hu
      · rw [if_neg hbr]; exact ih (users ++ [u]) (nodup_append_singleton hnd hu)

theorem dedupAppendCapped_le (mu : Nat) : ∀ (new users : List Val),
    users.length < mu →
    (dedupAppendCapped (some mu) users new).length ≤ mu := by
  intro new
  induction new with
  | nil => intro users hlt; simp [dedupAppendCapped]; omega
  | cons u rest ih =>
    intro users hlt
    rw [dedupAppendCapped]
    by_cases hu : u ∈ users
    · rw [if_pos hu]; exact ih users hlt
    · rw [if_neg hu]
      by_cases hbr : capBreak (some mu) (users ++ [u]) = true
      · rw [if_pos hbr]
        simp
        omega
      · rw [if_neg hbr]
        have hlt' : (users ++ [u]).length < mu := by
          simp [capBreak] at hbr
          simp
          omega
        exact ih (users ++ [u]) hlt'

theorem dateSplitGo_inv (env : UserSearchEnv) (mu : Nat) :
    ∀ (fuel : Nat) (ranges : List (Nat × Nat)) (users us : List Val),
    dateSplitGo env (some mu) fuel ranges users = .ok us →
    users.Nodup → users.length ≤ mu + 999 →
    us.Nodup ∧ us.length ≤ mu + 999 := by
  intro fuel
  induction fuel with
  | zero =>
    intro ranges users us h hnd hlen
    rw [dateSplitGo] at h
    cases h
    exact ⟨hnd, hlen⟩
  | succ fuel ih =>
    intro ranges users us h hnd hlen
    cases ranges with
    | nil =>
      rw [dateSplitGo] at h
      by_cases hcond : maxOk (some mu) users = true
      · rw [if_pos hcond] at h; cases h; exact ⟨hnd, hlen⟩
      · rw [if_neg hcond] at h; cases h; exact ⟨hnd, hlen⟩
    | cons se rest =>
      obtain ⟨s, e⟩ := se
      rw [dateSplitGo] at h
      by_cases hcond : maxOk (some mu) users = true
      swap
      · rw [if_neg hcond] at h; cases h; exact ⟨hnd, hlen⟩
      rw [if_pos hcond] at h
      have hlt : users.length < mu := by simpa [maxOk] using hcond
      cases hcnt : env.countOf s e with
      | error e0 =>
        rw [hcnt] at h
        simp only at h
        exact ih rest users us h hnd hlen
      | ok count =>
        rw [hcnt] at h
        simp only at h
        by_cases hz : count = 0
        · rw [if_pos hz] at h
          exact ih rest users us h hnd hlen
        · rw [if_neg hz] at h
          by_cases hsmall : count ≤ 1000
          · rw [if_pos hsmall] at h
            cases hpg : paginatedUserSearch (env.pagesOf s e)
                (min count (remainingOf (some mu) users count)) with
            | error e1 => rw [hpg, exBind_error] at h; exact absurd h (by simp)
            | ok nu =>
              rw [hpg, exBind_ok] at h
              exact ih rest _ us h
                (dedupAppendCapped_nodup (some mu) nu users hnd)
                (le_trans (dedupAppendCapped_le mu nu users hlt) (by omega))
          · rw [if_neg hsmall] at h
            by_cases hday : e - s ≤ 1
            · rw [if_pos hday] at h
              cases hpg : paginatedUserSearch (env.pagesOf s e) 1000 with
              | error e1 => rw [hpg, exBind_error] at h; exact absurd h (by simp)
              | ok nu =>
                rw [hpg, exBind_ok] at h
                have hb := dedupAppend_le nu users
                have hnu := paginatedUserSearch_le (env.pagesOf s e) 1000 nu hpg
                exact ih rest _ us h (dedupAppend_nodup nu users hnd)
                  (by omega)
            · rw [if_neg hday] at h
              exact ih _ users us h hnd hlen

end GF

namespace GF

/-- A user node as returned by the user-search query. -/
def uNode (s : String) : Val :=
  .vobj [("login", .vstr s), ("__typename", .vstr "User")]

/-- Environment for the discovery counterexample: every range counts 1001, so
the driver splits until the one-day range [0,1], whose page holds three
logins. -/
def ceEnv : UserSearchEnv where
  countOf := fun _ _ => .ok 1001
  pagesOf := fun s e =>
    if s = 0 && e = 1 then [.ok ⟨[uNode "a", uNode "b", uNode "c"], false⟩]
    else []

/-- C6 (counterexample): with `max_users = 1` and a world of two days, the
degenerate one-day branch appends three logins without consulting
`max_users`, so the returned list has length 3 > 1, refuting the claim that
its length never exceeds `max_users`. -/
theorem discovery_dedup_bound_cex :
    fetch_users_with_date_split ceEnv 2 (some 1) 10
      = .ok [.vstr "a", .vstr "b", .vstr "c"]
    ∧ 1 < ([Val.vstr "a", .vstr "b", .vstr "c"]).length :=
  ⟨rfl, by decide⟩

/-- C6 (amended): the discovery driver's result never holds a duplicate
login, and its length is at most `max_users + 999`: every path except the
degenerate ≤1-day branch stops appending at `max_users`, while that branch
(entered with fewer than `max_users` logins) appends at most 1000 new logins
without consulting the cap. -/
theorem discovery_dedup_bound (env : UserSearchEnv) (today mu fuel : Nat)
    (us : List Val)
    (h : fetch_users_with_date_split env today (some mu) fuel = .ok us) :
    us.Nodup ∧ us.length ≤ mu + 999 :=
  dateSplitGo_inv env mu fuel [(0, today)] [] us h List.nodup_nil
    (by simp)

/-- Environment for the discovery witness: one enumerable range holding two
logins. -/
def dedupWEnv : UserSearchEnv where
  countOf := fun _ _ => .ok 2
  pagesOf := fun _ _ => [.ok ⟨[uNode "a", uNode "b"], false⟩]

/-- C6 (witness): the amended theorem applied to a concrete run returning two
distinct logins under `max_users = 5`. -/
theorem discovery_dedup_bound_witness :
    ([Val.vstr "a", .vstr "b"]).Nodup
    ∧ ([Val.vstr "a", .vstr "b"]).length ≤ 5 + 999 :=
  discovery_dedup_bound dedupWEnv 3 5 3 [Val.vstr "a", .vstr "b"] rfl

end GF

namespace GF

theorem reposForUsersGo_ok (env : String → List (Except Unit Page))
    (f : String → List Val) :
    ∀ (us : List String) (acc : List Val),
    (∀ u ∈ us, fetchUserRepos (env u) = .ok (f u)) →
    reposForUsersGo env us acc = .ok (acc ++ (us.map f).flatten) := by
  intro us
  induction us with
  | nil => intro acc hf; simp [reposForUsersGo]
  | cons u rest ih =>
    intro acc hf
    rw [reposForUsersGo, hf u (by simp), exBind_ok,
      ih (acc ++ f u) (fun v hv => hf v (by simp [hv]))]
    simp

/-- C9: in the two-step orchestrator's per-account loop, an account whose
repository fetch fails (its first request raises — the account is deleted or
inaccessible) contributes zero records, the loop continues with every other
account, and the whole run completes normally with the concatenation of the
per-account results. -/
theorem per_account_containment (env : String → List (Except Unit Page))
    (usernames : List String) (f : String → List Val)
    (hf : ∀ u ∈ usernames, fetchUserRepos (env u) = .ok (f u))
    (u0 : String) (hu0 : u0 ∈ usernames)
    (s0 : List (Except Unit Page)) (henv : env u0 = .error () :: s0) :
    fetch_repos_for_users env usernames = .ok ((usernames.map f).flatten)
    ∧ f u0 = [] := by
  constructor
  · rw [fetch_repos_for_users, reposForUsersGo_ok env f usernames [] hf]
    simp
  · have h1 := hf u0 hu0
    rw [henv] at h1
    have h2 : fetchUserRepos (.error () :: s0) = .ok [] := rfl
    rw [h2] at h1
    exact (Except.ok.inj h1).symm

/-- Per-account scripts for the containment witness: "bob" is inaccessible
(first request raises), the others return one repository each. -/
def containWEnv (u : String) : List (Except Unit Page) :=
  if u = "bob" then [.error ()] else [.ok ⟨[wNode], false⟩]

/-- C9 (witness): the containment theorem applied to the run over
["alice", "bob", "carol"] where bob's fetch fails: bob contributes zero
records and the run returns alice's and carol's records. -/
theorem per_account_containment_witness :
    fetch_repos_for_users containWEnv ["alice", "bob", "carol"]
      = .ok [defRecV, defRecV]
    ∧ (fun u => if u = "bob" then ([] : List Val) else [defRecV]) "bob" = [] :=
  per_account_containment containWEnv ["alice", "bob", "carol"]
    (fun u => if u = "bob" then [] else [defRecV])
    (by
      intro u hu
      simp at hu
      rcases hu with rfl | rfl | rfl <;> rfl)
    "bob" (by simp) [] rfl

end GF
